import Mathlib

/-!
Verification of the ncore-stats ingestion pipeline (src/main.go) against its
natural-language specification.  The Go program is shallowly embedded: pure
helpers become Lean functions, the SQLite tables become lists of records, the
SQL queries become list transformations, and the scheduler loop becomes a
step function over an explicit event trace.
-/

set_option linter.unusedVariables false

/-- Embeds the Go struct `User` (src/main.go lines 55-59): one row of the
`users` table. -/
structure User where
  id : Nat
  displayName : String
  profileID : String
deriving DecidableEq, Repr

/-- Embeds the Go struct `ProfileData` (src/main.go lines 43-52): one profile
snapshot as served by the JSON API.  The Go `time.Time` timestamp is embedded
as a `Nat` (timestamps only ever get compared and maximized). -/
structure ProfileData where
  owner : String
  timestamp : Nat
  rank : Int
  upload : String
  currentUpload : String
  currentDownload : String
  points : Int
  seedingCount : Int
deriving DecidableEq, Repr

/-- One row of the `profile_history` table (schema in `initializeDatabase`,
src/main.go line 187): the columns inserted by `logToDB`. -/
structure Row where
  userId : Nat
  timestamp : Nat
  rank : Int
  upload : String
  currentUpload : String
  currentDownload : String
  points : Int
  seedingCount : Int
deriving DecidableEq, Repr

/-- The persistent database state: the `users` and `profile_history` tables. -/
structure DB where
  users : List User
  history : List Row
deriving DecidableEq, Repr

/-- `SELECT u.display_name, ph.timestamp, ph.rank, ...` output row: joins a
history row with its owner's display name (the column list shared by both
handlers' queries). -/
def mkProfile (name : String) (r : Row) : ProfileData :=
  { owner := name, timestamp := r.timestamp, rank := r.rank,
    upload := r.upload, currentUpload := r.currentUpload,
    currentDownload := r.currentDownload, points := r.points,
    seedingCount := r.seedingCount }

/-! ### Field extraction (`fetchProfile`, src/main.go lines 445-468)

The goquery document is embedded as the data the two `doc.Find(...)` loops
actually read: the list of (label text, adjacent value text) pairs selected by
`.userbox_tartalom_mini .profil_jobb_elso2` together with `s.Next()`, and the
list of texts of the `.lista_mini_fej` elements. -/

structure Doc where
  pairs : List (String × String)
  miniFej : List String
deriving DecidableEq, Repr

/-- `true` iff `s` is a string accepted by Go `strconv.Atoi`: an optional
sign followed by one or more ASCII digits (integer width abstracted away). -/
def atoiValid (s : String) : Bool :=
  match s.data with
  | [] => false
  | '+' :: ds => !ds.isEmpty && ds.all Char.isDigit
  | '-' :: ds => !ds.isEmpty && ds.all Char.isDigit
  | ds => ds.all Char.isDigit

/-- Decimal value of a list of ASCII digits. -/
def natOfDigits (ds : List Char) : Nat :=
  ds.foldl (fun n c => 10 * n + (c.toNat - '0'.toNat)) 0

/-- Embeds Go `strconv.Atoi` with the error discarded, as the call sites
`profile.Rank, _ = strconv.Atoi(...)` and `profile.Points, _ = strconv.Atoi(...)`
do: a syntactically invalid string yields 0. -/
def atoiD (s : String) : Int :=
  if atoiValid s then
    match s.data with
    | '+' :: ds => (natOfDigits ds : Int)
    | '-' :: ds => -(natOfDigits ds : Int)
    | ds => (natOfDigits ds : Int)
  else 0

/-- Embeds Go `strings.TrimSuffix(value, ".")`: removes one trailing period
if present. -/
def trimSuffixDot (s : String) : String :=
  if s.data.getLast? = some '.' then ⟨s.data.dropLast⟩ else s

/-- Embeds Go `strings.ReplaceAll(value, " ", "")`: removes every space. -/
def removeSpaces (s : String) : String :=
  ⟨s.data.filter (fun c => c ≠ ' ')⟩

/-- The five label strings recognized by the `switch label` statement in
`fetchProfile` (src/main.go lines 448-459). -/
def recognizedLabels : List String :=
  ["Helyezés:", "Feltöltés:", "Aktuális feltöltés:", "Aktuális letöltés:",
   "Pontok száma:"]

/-- Embeds one iteration of the first `doc.Find(...).Each` loop of
`fetchProfile` (src/main.go lines 446-460): the `switch` on the label text,
assigning the adjacent value text to the matching field of the snapshot being
built.  A label outside the recognized set leaves the snapshot unchanged. -/
def applyPair (p : ProfileData) (lv : String × String) : ProfileData :=
  if lv.1 = "Helyezés:" then
    { p with rank := atoiD (trimSuffixDot lv.2) }
  else if lv.1 = "Feltöltés:" then
    { p with upload := lv.2 }
  else if lv.1 = "Aktuális feltöltés:" then
    { p with currentUpload := lv.2 }
  else if lv.1 = "Aktuális letöltés:" then
    { p with currentDownload := lv.2 }
  else if lv.1 = "Pontok száma:" then
    { p with points := atoiD (removeSpaces lv.2) }
  else p

/-- Embeds Go `regexp.MustCompile("...").FindStringSubmatch(text)` for the
pattern matching a parenthesized digit group, returning the first captured
group's value: scanning left to right, the first position holding an opening
parenthesis followed by a nonempty digit run followed by a closing
parenthesis.  (RE2 finds the leftmost match; for this pattern the greedy digit
run is forced, so the match at a position exists iff the maximal digit run
after the opening parenthesis is nonempty and followed by the closing one.) -/
def findParenGroup : List Char → Option Nat
  | [] => none
  | c :: rest =>
    if c = '(' then
      match rest.takeWhile Char.isDigit, rest.dropWhile Char.isDigit with
      | [], _ => findParenGroup rest
      | ds, ')' :: _ => some (natOfDigits ds)
      | _, _ => findParenGroup rest
    else findParenGroup rest

/-- `findParenGroup` on a string. -/
def findParenGroupS (s : String) : Option Nat :=
  findParenGroup s.data

/-- Embeds the second `doc.Find(".lista_mini_fej").Each` loop of
`fetchProfile` (src/main.go lines 462-466): each element whose text contains a
parenthesized digit group overwrites the seeding count with the captured value
(`fmt.Sscanf(matches[1], ...)`); elements without a match leave it unchanged. -/
def extractSeeding (init : Int) (texts : List String) : Int :=
  texts.foldl
    (fun acc t => match findParenGroupS t with
      | some n => (n : Int)
      | none => acc)
    init

/-- Embeds `&ProfileData{Owner: user.DisplayName, Timestamp: time.Now()}`
(src/main.go line 445): the snapshot before extraction, all other fields at
their Go zero values.  `time.Now()` is an environment input, the explicit
parameter `now`. -/
def initProfile (owner : String) (now : Nat) : ProfileData :=
  { owner := owner, timestamp := now, rank := 0, upload := "",
    currentUpload := "", currentDownload := "", points := 0,
    seedingCount := 0 }

/-- Embeds the pure tail of `fetchProfile` (src/main.go lines 445-468): the
snapshot is initialized with the account's display name and the current wall
clock reading, then the two extraction loops run over the document. -/
def fetchProfileExtract (owner : String) (now : Nat) (d : Doc) : ProfileData :=
  let p1 := d.pairs.foldl applyPair (initProfile owner now)
  { p1 with seedingCount := extractSeeding p1.seedingCount d.miniFej }

/-! ### Storage queries (src/main.go lines 240-315, 358-390)

SQL joins are embedded relationally: `FROM a JOIN b ON cond` is the list bind
over `a` of the rows of `b` passing `cond`. -/

/-- The history rows belonging to one `user_id` (one group of the
`GROUP BY user_id` subquery). -/
def rowsFor (db : DB) (uid : Nat) : List Row :=
  db.history.filter (fun r => r.userId == uid)

/-- `MAX(timestamp)` of one group (SQL `MAX` over the group's timestamps;
groups are only ever formed for nonempty row sets, where the fold with
identity 0 is the true maximum). -/
def maxTs (db : DB) (uid : Nat) : Nat :=
  ((rowsFor db uid).map (fun r => r.timestamp)).foldr max 0

/-- The join condition of the `INNER JOIN latest` clause of the
`profilesHandler` query (src/main.go lines 245-249) at a history row `r`:
`r.timestamp` equals its group's `MAX(timestamp)`. -/
def isLatestB (db : DB) (r : Row) : Bool :=
  r.timestamp == maxTs db r.userId

/-- The rows of `JOIN users u ON ph.user_id = u.id` contributed by one
history row that passed the latest-timestamp join. -/
def joinUsers (db : DB) (r : Row) : List ProfileData :=
  db.users.filterMap
    (fun u => if u.id == r.userId then some (mkProfile u.displayName r) else none)

/-- Embeds the `profilesHandler` query (src/main.go lines 242-251): every
history row whose timestamp is its account's maximum, joined with the owning
user row. -/
def latestPerAccount (db : DB) : List ProfileData :=
  db.history.flatMap (fun r => if isLatestB db r then joinUsers db r else [])

/-- The rows of the `historyHandler` join (src/main.go lines 285-291)
contributed by one history row: user rows matching both the foreign key and
`WHERE u.display_name = ?`. -/
def joinOwner (db : DB) (owner : String) (r : Row) : List ProfileData :=
  db.users.filterMap
    (fun u =>
      if u.id == r.userId && u.displayName == owner then
        some (mkProfile u.displayName r)
      else none)

/-- Insert into a list sorted by ascending timestamp. -/
def insertTs (p : ProfileData) : List ProfileData → List ProfileData
  | [] => [p]
  | q :: qs => if p.timestamp ≤ q.timestamp then p :: q :: qs else q :: insertTs p qs

/-- `ORDER BY ph.timestamp ASC`: sorting the result rows by ascending
timestamp (the order among equal timestamps is unspecified by SQL; any
reordering of ties is the same multiset). -/
def sortTs (l : List ProfileData) : List ProfileData :=
  l.foldr insertTs []

/-- Embeds the `historyHandler` query (src/main.go lines 285-291): all
history rows joined with the user row named `owner`, ordered by ascending
timestamp. -/
def historyFor (db : DB) (owner : String) : List ProfileData :=
  sortTs (db.history.flatMap (joinOwner db owner))

/-! ### JSON responses (src/main.go lines 260-275, 300-315)

Both handlers accumulate rows into a slice declared `var xs []ProfileData`,
which is Go's nil slice; `encoding/json` encodes a nil slice as JSON `null`
and a non-nil slice as a JSON array.  The slice built by repeated `append`
from nil is nil exactly when no row was scanned. -/

inductive Json where
  | null : Json
  | arr : List ProfileData → Json
deriving DecidableEq, Repr

/-- Embeds `json.NewEncoder(w).Encode(xs)` applied to the slice accumulated
from Go's nil slice: zero rows encode as JSON `null`, one or more rows as a
JSON array of the rows. -/
def goSliceEncode (rows : List ProfileData) : Json :=
  if rows.isEmpty then Json.null else Json.arr rows

/-- The JSON body written by a successful `profilesHandler` request
(src/main.go lines 241-275). -/
def profilesResponse (db : DB) : Json :=
  goSliceEncode (latestPerAccount db)

/-- The response of `historyHandler` (src/main.go lines 278-315): HTTP 400
when the `owner` query parameter is missing or empty, otherwise the JSON body
for the owner's history. -/
def historyResponse (db : DB) (owner : String) : Except Nat Json :=
  if owner = "" then Except.error 400
  else Except.ok (goSliceEncode (historyFor db owner))

/-! ### Fetch cycle and scheduler (src/main.go lines 325-419)

`fetchAndLogAllProfiles` is embedded over two oracles: `fetch` gives the
outcome of `s.fetchProfile(user)` (one network call per user per cycle) and
`ap` gives whether `s.logToDB` succeeds.  The Go function receives no
`context.Context` and its loop body contains no cancellation check; the
parameter `cancelRequested` records the environment's cancellation state
during the cycle, and is (faithfully) never read. -/

/-- Embeds the `for _, user := range users` loop of `fetchAndLogAllProfiles`
(src/main.go lines 406-417).  Returns the list of users for which a fetch was
attempted (in order, one attempt each) and the list of
`(user_id, profile)` pairs successfully inserted by `logToDB`: a failed fetch
is logged and skipped (`continue`), a failed insert is logged, and in both
cases the loop proceeds to the next user. -/
def runCycle (cancelRequested : Bool) (fetch : User → Except String ProfileData)
    (ap : Nat → ProfileData → Bool) :
    List User → List User × List (Nat × ProfileData)
  | [] => ([], [])
  | u :: rest =>
    let acc := runCycle cancelRequested fetch ap rest
    match fetch u with
    | Except.error _ => (u :: acc.1, acc.2)
    | Except.ok p =>
      (u :: acc.1, if ap u.id p then (u.id, p) :: acc.2 else acc.2)

/-- The outcome of one `select` in `profileFetcherLoop` (src/main.go lines
333-341): either the 24-hour ticker fired or the context was cancelled. -/
inductive SchedEvent where
  | tick : SchedEvent
  | cancel : SchedEvent
deriving DecidableEq, Repr

/-- The `for { select { ... } }` loop of `profileFetcherLoop` (src/main.go
lines 333-341) over a trace of select outcomes: a tick runs one full cycle, a
cancellation returns from the goroutine; an exhausted trace means the loop is
still blocked in `select`.  `fetch i` is the fetch oracle during cycle `i`. -/
def fetcherLoopAux (fetch : Nat → User → Except String ProfileData)
    (ap : Nat → ProfileData → Bool) (users : List User) (i : Nat) :
    List SchedEvent → List (List (Nat × ProfileData))
  | [] => []
  | SchedEvent.tick :: es =>
    (runCycle false (fetch i) ap users).2 :: fetcherLoopAux fetch ap users (i + 1) es
  | SchedEvent.cancel :: _ => []

/-- Embeds `profileFetcherLoop` (src/main.go lines 326-342): one full cycle
runs immediately on startup, before the ticker loop, then one cycle per tick
until a cancellation outcome is observed at the `select`. -/
def profileFetcherLoop (fetch : Nat → User → Except String ProfileData)
    (ap : Nat → ProfileData → Bool) (users : List User)
    (events : List SchedEvent) : List (List (Nat × ProfileData)) :=
  (runCycle false (fetch 0) ap users).2 :: fetcherLoopAux fetch ap users 1 events

/-! ### Source fetch errors (src/main.go lines 422-443) -/

/-- `true` iff `pat` occurs as a contiguous substring of `s` (both as char
lists). -/
def containsSub (pat s : List Char) : Bool :=
  (List.range (s.length + 1)).any (fun i => pat.isPrefixOf (s.drop i))

/-- Embeds the response-status handling of `fetchProfile` (src/main.go lines
436-443): a non-200 status yields the error built by
`fmt.Errorf("received non-200 status code: %d", resp.StatusCode)`, otherwise
the document is parsed and extraction runs. -/
def fetchProfileResult (user : User) (status : Nat) (now : Nat) (d : Doc) :
    Except String ProfileData :=
  if status ≠ 200 then
    Except.error ("received non-200 status code: " ++ toString status)
  else
    Except.ok (fetchProfileExtract user.displayName now d)

/-! ### SQLite connection and inserts (src/main.go lines 169-194, 377-390)

`initializeDatabase` opens the store with `sql.Open("sqlite", dbPath)`; the
DSN is the bare file path and carries no `_pragma=foreign_keys(1)` option.
SQLite's `foreign_keys` pragma defaults to OFF and is never enabled by the
program, so the declared `FOREIGN KEY ... ON DELETE CASCADE` clause of the
`profile_history` schema is not enforced at run time. -/

structure Conn where
  fkEnforced : Bool
deriving DecidableEq, Repr

/-- Modelled `sql.Open("sqlite", dsn)`: foreign-key enforcement is on exactly
when the DSN requests the pragma. -/
def openSqlite (dsnRequestsFkPragma : Bool) : Conn :=
  { fkEnforced := dsnRequestsFkPragma }

/-- Embeds `initializeDatabase` (src/main.go lines 169-194): the connection it
returns, whose DSN (`fmt.Sprintf("%s/ncore_stats.db", ...)`) requests no
pragma. -/
def initializeDatabaseConn : Conn :=
  openSqlite false

/-- The row inserted by `logToDB` (src/main.go line 385). -/
def profileToRow (p : ProfileData) (userID : Nat) : Row :=
  { userId := userID, timestamp := p.timestamp, rank := p.rank,
    upload := p.upload, currentUpload := p.currentUpload,
    currentDownload := p.currentDownload, points := p.points,
    seedingCount := p.seedingCount }

/-- Embeds `logToDB` (src/main.go lines 377-390): one `INSERT INTO
profile_history ...`.  The declared foreign-key constraint rejects a dangling
`user_id` only when the connection enforces foreign keys. -/
def logToDB (c : Conn) (db : DB) (p : ProfileData) (userID : Nat) :
    Except String DB :=
  if c.fkEnforced && !(db.users.any (fun u => u.id == userID)) then
    Except.error "constraint failed: FOREIGN KEY constraint failed"
  else
    Except.ok { db with history := db.history ++ [profileToRow p userID] }

/-- A concrete snapshot used in closed instances. -/
def sampleProfile : ProfileData :=
  { owner := "alice", timestamp := 7, rank := 5, upload := "1.0 TiB",
    currentUpload := "10 GiB", currentDownload := "2 GiB", points := 1000,
    seedingCount := 3 }

/-- Concrete users for closed instances. -/
def aliceU : User := ⟨1, "alice", "p1"⟩

def bobU : User := ⟨2, "bob", "p2"⟩

/-! ### Helper lemmas -/

theorem applyPair_seedingCount (p : ProfileData) (lv : String × String) :
    (applyPair p lv).seedingCount = p.seedingCount := by
  unfold applyPair
  repeat' split
  all_goals rfl

theorem foldl_applyPair_seedingCount (l : List (String × String)) :
    ∀ p : ProfileData, (l.foldl applyPair p).seedingCount = p.seedingCount := by
  induction l with
  | nil => intro p; rfl
  | cons lv tl ih =>
    intro p
    rw [List.foldl_cons, ih, applyPair_seedingCount]

theorem applyPair_timestamp_set (p : ProfileData) (t : Nat) (lv : String × String) :
    applyPair { p with timestamp := t } lv = { applyPair p lv with timestamp := t } := by
  unfold applyPair
  repeat' split
  all_goals rfl

theorem foldl_applyPair_timestamp_set (l : List (String × String)) :
    ∀ (p : ProfileData) (t : Nat),
      l.foldl applyPair { p with timestamp := t } =
        { l.foldl applyPair p with timestamp := t } := by
  induction l with
  | nil => intro p t; rfl
  | cons lv tl ih =>
    intro p t
    rw [List.foldl_cons, applyPair_timestamp_set, ih, List.foldl_cons]

theorem extractSeeding_eq_lastMatch (texts : List String) :
    ∀ init : Int,
      extractSeeding init texts =
        match (texts.filterMap findParenGroupS).getLast? with
        | some n => (n : Int)
        | none => init := by
  induction texts with
  | nil => intro init; rfl
  | cons t tl ih =>
    intro init
    show extractSeeding
        (match findParenGroupS t with | some n => (n : Int) | none => init) tl = _
    rw [ih]
    rw [List.filterMap_cons]
    cases h : findParenGroupS t with
    | none => rfl
    | some v =>
      cases h2 : tl.filterMap findParenGroupS with
      | nil => rfl
      | cons x xs =>
        cases h3 : (x :: xs).getLast? with
        | none => simp at h3
        | some y => simp [List.getLast?_cons_cons, h3]

/-- C10: the extracted seeding count is the value of the first parenthesized
digit group of the last `lista_mini_fej` element containing one (later
matching elements overwrite earlier ones), and 0 when no element matches. -/
theorem seeding_count_last_matching_element :
    (∀ (owner : String) (now : Nat) (d : Doc),
      (fetchProfileExtract owner now d).seedingCount =
        match (d.miniFej.filterMap findParenGroupS).getLast? with
        | some n => (n : Int)
        | none => 0) ∧
    (fetchProfileExtract "o" 0 ⟨[], ["a (3) b", "(12) x"]⟩).seedingCount = 12 ∧
    (fetchProfileExtract "o" 0 ⟨[], ["Seeding torrents"]⟩).seedingCount = 0 := by
  refine ⟨?_, by decide, by decide⟩
  intro owner now d
  show extractSeeding ((d.pairs.foldl applyPair _).seedingCount) d.miniFej = _
  rw [extractSeeding_eq_lastMatch, foldl_applyPair_seedingCount]
  rfl

/-- C7: rank extraction strips one trailing period, points extraction strips
the space thousands separators, conversion failure yields the zero value, and
in particular rank "42." gives 42 while rank "N/A" gives 0. -/
theorem rank_and_points_normalization :
    (∀ (p : ProfileData) (v : String),
      applyPair p ("Helyezés:", v) = { p with rank := atoiD (trimSuffixDot v) }) ∧
    (∀ (p : ProfileData) (v : String),
      applyPair p ("Pontok száma:", v) = { p with points := atoiD (removeSpaces v) }) ∧
    (∀ s : String, atoiValid s = false → atoiD s = 0) ∧
    (fetchProfileExtract "o" 0 ⟨[("Helyezés:", "42.")], []⟩).rank = 42 ∧
    (fetchProfileExtract "o" 0 ⟨[("Helyezés:", "N/A")], []⟩).rank = 0 := by
  refine ⟨fun p v => rfl, fun p v => rfl, ?_, by decide, by decide⟩
  intro s h
  simp [atoiD, h]

theorem rank_and_points_normalization_witness :
    atoiValid "N/A" = false ∧ atoiD "N/A" = 0 :=
  ⟨by decide, rank_and_points_normalization.2.2.1 "N/A" (by decide)⟩

/-- C6 counterexample: two runs of `fetchProfile`'s extraction on the same
(empty) document, at clock readings 0 and 1, give snapshots that differ (in
the timestamp field), so the extracted snapshots are not equal in every
field. -/
theorem extraction_differs_across_clock_readings :
    fetchProfileExtract "alice" 0 ⟨[], []⟩ ≠ fetchProfileExtract "alice" 1 ⟨[], []⟩ := by
  decide

/-- C6 (amended): extraction is deterministic in every field except the
observation timestamp, which is the capture-time clock reading; an
unrecognized label never mutates any field; a recognized label with an
unparsable value yields zero for that field without raising. -/
theorem extraction_pure_modulo_timestamp :
    (∀ (owner : String) (now : Nat) (d : Doc),
      fetchProfileExtract owner now d =
        { fetchProfileExtract owner 0 d with timestamp := now }) ∧
    (∀ (p : ProfileData) (l v : String),
      l ∉ recognizedLabels → applyPair p (l, v) = p) ∧
    (∀ (p : ProfileData) (v : String), atoiValid (trimSuffixDot v) = false →
      (applyPair p ("Helyezés:", v)).rank = 0) ∧
    (∀ (p : ProfileData) (v : String), atoiValid (removeSpaces v) = false →
      (applyPair p ("Pontok száma:", v)).points = 0) := by
  refine ⟨?_, ?_, ?_, ?_⟩
  · intro owner now d
    unfold fetchProfileExtract
    have h1 : initProfile owner now = { initProfile owner 0 with timestamp := now } := rfl
    rw [h1, foldl_applyPair_timestamp_set]
  · intro p l v h
    simp only [recognizedLabels, List.mem_cons, List.not_mem_nil, or_false,
      not_or] at h
    obtain ⟨h1, h2, h3, h4, h5⟩ := h
    simp [applyPair, h1, h2, h3, h4, h5]
  · intro p v h
    show (({ p with rank := atoiD (trimSuffixDot v) } : ProfileData)).rank = 0
    simp [atoiD, h]
  · intro p v h
    show (({ p with points := atoiD (removeSpaces v) } : ProfileData)).points = 0
    simp [atoiD, h]

theorem extraction_pure_modulo_timestamp_witness :
    "Korlátozások:" ∉ recognizedLabels ∧
    applyPair sampleProfile ("Korlátozások:", "x") = sampleProfile :=
  ⟨by decide,
   extraction_pure_modulo_timestamp.2.1 sampleProfile "Korlátozások:" "x" (by decide)⟩

/-- C5: the connection opened by `initializeDatabase` never enables SQLite
foreign-key enforcement, so `logToDB` succeeds even when the `user_id` it
inserts references no row of `users`: the orphan snapshot is stored instead
of the insert failing.  (With enforcement requested, the same insert would be
rejected — the declared schema's intent.) -/
theorem logToDB_accepts_dangling_reference :
    initializeDatabaseConn.fkEnforced = false ∧
    logToDB initializeDatabaseConn ⟨[], []⟩ sampleProfile 1 =
      Except.ok ⟨[], [profileToRow sampleProfile 1]⟩ ∧
    logToDB (openSqlite true) ⟨[], []⟩ sampleProfile 1 =
      Except.error "constraint failed: FOREIGN KEY constraint failed" :=
  ⟨rfl, rfl, rfl⟩

/-! ### Cycle lemmas -/

theorem runCycle_attempts (b : Bool) (fetch : User → Except String ProfileData)
    (ap : Nat → ProfileData → Bool) :
    ∀ users : List User, (runCycle b fetch ap users).1 = users := by
  intro users
  induction users with
  | nil => rfl
  | cons u rest ih =>
    show (runCycle b fetch ap (u :: rest)).1 = u :: rest
    unfold runCycle
    cases fetch u with
    | error e => simpa using ih
    | ok p => simpa using ih

theorem runCycle_cancel_blind (b b' : Bool) (fetch : User → Except String ProfileData)
    (ap : Nat → ProfileData → Bool) :
    ∀ users : List User, runCycle b fetch ap users = runCycle b' fetch ap users := by
  intro users
  induction users with
  | nil => rfl
  | cons u rest ih =>
    unfold runCycle
    rw [ih]

theorem runCycle_appends_sound (b : Bool) (fetch : User → Except String ProfileData)
    (ap : Nat → ProfileData → Bool) :
    ∀ (users : List User) (pr : Nat × ProfileData),
      pr ∈ (runCycle b fetch ap users).2 →
      ∃ v ∈ users, v.id = pr.1 ∧ fetch v = Except.ok pr.2 ∧ ap v.id pr.2 = true := by
  intro users
  induction users with
  | nil => intro pr h; simp [runCycle] at h
  | cons u rest ih =>
    intro pr h
    unfold runCycle at h
    cases hf : fetch u with
    | error e =>
      rw [hf] at h
      simp only at h
      obtain ⟨v, hv, hrest⟩ := ih pr h
      exact ⟨v, List.mem_cons_of_mem u hv, hrest⟩
    | ok p =>
      rw [hf] at h
      simp only at h
      by_cases hap : ap u.id p = true
      · rw [if_pos hap] at h
        rcases List.mem_cons.mp h with heq | hmem
        · refine ⟨u, List.mem_cons_self u rest, ?_, ?_, ?_⟩
          · rw [heq]
          · rw [hf, heq]
          · rw [heq]; exact hap
        · obtain ⟨v, hv, hrest⟩ := ih pr hmem
          exact ⟨v, List.mem_cons_of_mem u hv, hrest⟩
      · rw [if_neg hap] at h
        obtain ⟨v, hv, hrest⟩ := ih pr h
        exact ⟨v, List.mem_cons_of_mem u hv, hrest⟩

/-- C3: a failed fetch (or failed insert) for one account is skipped and the
loop continues: the cycle's outcome for the remaining accounts is exactly the
cycle over them, and every account whose fetch and insert succeed gets its
snapshot appended, whatever happens to the other accounts. -/
theorem cycle_isolates_per_account_failures :
    (∀ (b : Bool) (fetch : User → Except String ProfileData)
        (ap : Nat → ProfileData → Bool) (u : User) (rest : List User) (e : String),
      fetch u = Except.error e →
      runCycle b fetch ap (u :: rest) =
        (u :: (runCycle b fetch ap rest).1, (runCycle b fetch ap rest).2)) ∧
    (∀ (b : Bool) (fetch : User → Except String ProfileData)
        (ap : Nat → ProfileData → Bool) (u : User) (rest : List User)
        (p : ProfileData),
      fetch u = Except.ok p → ap u.id p = false →
      runCycle b fetch ap (u :: rest) =
        (u :: (runCycle b fetch ap rest).1, (runCycle b fetch ap rest).2)) ∧
    (∀ (b : Bool) (fetch : User → Except String ProfileData)
        (ap : Nat → ProfileData → Bool) (users : List User) (v : User)
        (p : ProfileData),
      v ∈ users → fetch v = Except.ok p → ap v.id p = true →
      (v.id, p) ∈ (runCycle b fetch ap users).2) := by
  have hcons : ∀ (b : Bool) (fetch : User → Except String ProfileData)
      (ap : Nat → ProfileData → Bool) (u : User) (rest : List User),
      runCycle b fetch ap (u :: rest) =
        match fetch u with
        | Except.error _ =>
          (u :: (runCycle b fetch ap rest).1, (runCycle b fetch ap rest).2)
        | Except.ok p =>
          (u :: (runCycle b fetch ap rest).1,
            if ap u.id p then (u.id, p) :: (runCycle b fetch ap rest).2
            else (runCycle b fetch ap rest).2) :=
    fun b fetch ap u rest => rfl
  refine ⟨?_, ?_, ?_⟩
  · intro b fetch ap u rest e h
    rw [hcons, h]
  · intro b fetch ap u rest p hf hap
    rw [hcons, hf]
    simp [hap]
  · intro b fetch ap users
    induction users with
    | nil => intro v p hv; simp at hv
    | cons u rest ih =>
      intro v p hv hf hap
      unfold runCycle
      rcases List.mem_cons.mp hv with heq | hmem
      · subst heq
        rw [hf]
        simp only [hap, if_pos]
        exact List.mem_cons_self _ _
      · cases hfu : fetch u with
        | error e => exact ih v p hmem hf hap
        | ok q =>
          simp only
          split
          · exact List.mem_cons_of_mem _ (ih v p hmem hf hap)
          · exact ih v p hmem hf hap

theorem cycle_isolates_per_account_failures_witness :
    (bobU.id, sampleProfile) ∈
      (runCycle true
        (fun u => if u.displayName = "alice" then Except.error "boom"
                  else Except.ok sampleProfile)
        (fun _ _ => true) [aliceU, bobU]).2 :=
  cycle_isolates_per_account_failures.2.2 true
    (fun u => if u.displayName = "alice" then Except.error "boom"
              else Except.ok sampleProfile)
    (fun _ _ => true) [aliceU, bobU] bobU sampleProfile
    (by decide) rfl rfl

/-- C4 counterexample: with cancellation requested throughout the cycle (flag
`true`), the cycle over two accounts still attempts the second account's
fetch — the loop body of `fetchAndLogAllProfiles` never observes the
cancellation signal, so it does not stop after the first account as the claim
requires. -/
theorem cycle_fetches_all_despite_cancellation :
    (runCycle true (fun _ => Except.ok sampleProfile) (fun _ _ => true)
        [aliceU, bobU]).1 = [aliceU, bobU] ∧
    ¬ (runCycle true (fun _ => Except.ok sampleProfile) (fun _ _ => true)
        [aliceU, bobU]).1 = [aliceU] := by
  constructor
  · rfl
  · intro h
    simp [runCycle, aliceU, bobU] at h

theorem fetcherLoopAux_stops_at_cancel (fetch : Nat → User → Except String ProfileData)
    (ap : Nat → ProfileData → Bool) (users : List User) :
    ∀ (es₁ : List SchedEvent) (i : Nat) (es₂ : List SchedEvent),
      SchedEvent.cancel ∉ es₁ →
      fetcherLoopAux fetch ap users i (es₁ ++ SchedEvent.cancel :: es₂) =
        fetcherLoopAux fetch ap users i (es₁ ++ [SchedEvent.cancel]) := by
  intro es₁
  induction es₁ with
  | nil => intro i es₂ h; rfl
  | cons e es ih =>
    intro i es₂ h
    cases e with
    | cancel => exact absurd (List.mem_cons_self _ _) h
    | tick =>
      show (runCycle false (fetch i) ap users).2 ::
          fetcherLoopAux fetch ap users (i + 1) (es ++ SchedEvent.cancel :: es₂) = _
      rw [ih (i + 1) es₂ (fun hm => h (List.mem_cons_of_mem _ hm))]
      rfl

theorem fetcherLoopAux_length_at_cancel (fetch : Nat → User → Except String ProfileData)
    (ap : Nat → ProfileData → Bool) (users : List User) :
    ∀ (es₁ : List SchedEvent) (i : Nat) (es₂ : List SchedEvent),
      SchedEvent.cancel ∉ es₁ →
      (fetcherLoopAux fetch ap users i (es₁ ++ SchedEvent.cancel :: es₂)).length =
        es₁.length := by
  intro es₁
  induction es₁ with
  | nil => intro i es₂ h; rfl
  | cons e es ih =>
    intro i es₂ h
    cases e with
    | cancel => exact absurd (List.mem_cons_self _ _) h
    | tick =>
      show ((runCycle false (fetch i) ap users).2 ::
          fetcherLoopAux fetch ap users (i + 1) (es ++ SchedEvent.cancel :: es₂)).length = _
      rw [List.length_cons, ih (i + 1) es₂ (fun hm => h (List.mem_cons_of_mem _ hm))]
      rfl

theorem fetcherLoopAux_cycles_shape (fetch : Nat → User → Except String ProfileData)
    (ap : Nat → ProfileData → Bool) (users : List User) :
    ∀ (es : List SchedEvent) (i : Nat) (c : List (Nat × ProfileData)),
      c ∈ fetcherLoopAux fetch ap users i es →
      ∃ j, c = (runCycle false (fetch j) ap users).2 := by
  intro es
  induction es with
  | nil => intro i c h; simp [fetcherLoopAux] at h
  | cons e tl ih =>
    intro i c h
    cases e with
    | cancel => simp [fetcherLoopAux] at h
    | tick =>
      rcases List.mem_cons.mp h with heq | hmem
      · exact ⟨i, heq⟩
      · exact ih (i + 1) c hmem

/-- C4 (amended): the scheduler observes cancellation at a single suspension
point — the `select` that also waits on the interval ticker.  Once a
cancellation outcome is observed there, the goroutine returns and emits no
further cycles (whatever events follow are never consumed).  A cycle in
progress, including the immediate startup cycle, is not a suspension point:
it attempts every account regardless of the cancellation state. -/
theorem scheduler_observes_cancel_at_timer_only
    (fetch : Nat → User → Except String ProfileData)
    (ap : Nat → ProfileData → Bool) (users : List User)
    (es₁ es₂ : List SchedEvent) (h : SchedEvent.cancel ∉ es₁) :
    profileFetcherLoop fetch ap users (es₁ ++ SchedEvent.cancel :: es₂) =
      profileFetcherLoop fetch ap users (es₁ ++ [SchedEvent.cancel]) ∧
    (profileFetcherLoop fetch ap users (es₁ ++ SchedEvent.cancel :: es₂)).length =
      es₁.length + 1 ∧
    (∀ c ∈ profileFetcherLoop fetch ap users (es₁ ++ SchedEvent.cancel :: es₂),
      ∃ j, c = (runCycle false (fetch j) ap users).2) ∧
    (∀ (b : Bool) (f : User → Except String ProfileData),
      runCycle b f ap users = runCycle false f ap users ∧
      (runCycle b f ap users).1 = users) := by
  refine ⟨?_, ?_, ?_, ?_⟩
  · show (runCycle false (fetch 0) ap users).2 :: _ = (runCycle false (fetch 0) ap users).2 :: _
    rw [fetcherLoopAux_stops_at_cancel fetch ap users es₁ 1 es₂ h]
  · show ((runCycle false (fetch 0) ap users).2 :: _).length = _
    rw [List.length_cons, fetcherLoopAux_length_at_cancel fetch ap users es₁ 1 es₂ h]
  · intro c hc
    rcases List.mem_cons.mp hc with heq | hmem
    · exact ⟨0, heq⟩
    · exact fetcherLoopAux_cycles_shape fetch ap users _ 1 c hmem
  · intro b f
    exact ⟨runCycle_cancel_blind b false f ap users, runCycle_attempts b f ap users⟩

theorem scheduler_observes_cancel_at_timer_only_witness :
    profileFetcherLoop (fun _ _ => Except.ok sampleProfile) (fun _ _ => true)
        [aliceU] ([SchedEvent.tick] ++ SchedEvent.cancel :: [SchedEvent.tick]) =
      profileFetcherLoop (fun _ _ => Except.ok sampleProfile) (fun _ _ => true)
        [aliceU] ([SchedEvent.tick] ++ [SchedEvent.cancel]) :=
  (scheduler_observes_cancel_at_timer_only (fun _ _ => Except.ok sampleProfile)
    (fun _ _ => true) [aliceU] [SchedEvent.tick] [SchedEvent.tick] (by decide)).1

theorem strData_append (a b : String) : (a ++ b).data = a.data ++ b.data := by
  cases a
  cases b
  rfl

theorem isPrefixOf_self (l : List Char) : l.isPrefixOf l = true := by
  induction l with
  | nil => rfl
  | cons c tl ih => simp [List.isPrefixOf, ih]

theorem containsSub_of_suffix (pre pat : List Char) :
    containsSub pat (pre ++ pat) = true := by
  unfold containsSub
  rw [List.any_eq_true]
  refine ⟨pre.length, ?_, ?_⟩
  · rw [List.mem_range, List.length_append]
    omega
  · rw [List.drop_left]
    exact isPrefixOf_self pat

/-- C8 counterexample: for the account "alice" and a 403 response, the error
returned by `fetchProfile` is exactly "received non-200 status code: 403",
which carries the status code but not the account's display name. -/
theorem fetch_error_lacks_display_name :
    fetchProfileResult aliceU 403 0 ⟨[], []⟩ =
      Except.error "received non-200 status code: 403" ∧
    containsSub "alice".data "received non-200 status code: 403".data = false := by
  exact ⟨rfl, by decide⟩

/-- C8 (amended): a non-200 response makes the source fetch return an error
carrying the status code (the display name is attached only by the
scheduler's log line, not by the error value); no snapshot is appended for an
account whose fetch fails, and each account is fetched exactly once per cycle
(no retry). -/
theorem nonOk_status_isolated (u : User) (status now : Nat) (d : Doc)
    (h : status ≠ 200) :
    fetchProfileResult u status now d =
      Except.error ("received non-200 status code: " ++ toString status) ∧
    containsSub (toString status).data
      ("received non-200 status code: " ++ toString status).data = true ∧
    (∀ (b : Bool) (fetch : User → Except String ProfileData)
        (ap : Nat → ProfileData → Bool) (users : List User),
      (runCycle b fetch ap users).1 = users) ∧
    (∀ (b : Bool) (fetch : User → Except String ProfileData)
        (ap : Nat → ProfileData → Bool) (users : List User)
        (pr : Nat × ProfileData),
      pr ∈ (runCycle b fetch ap users).2 →
      ∃ v ∈ users, v.id = pr.1 ∧ fetch v = Except.ok pr.2 ∧ ap v.id pr.2 = true) := by
  refine ⟨?_, ?_, ?_, ?_⟩
  · simp [fetchProfileResult, h]
  · rw [strData_append]
    exact containsSub_of_suffix _ _
  · exact fun b fetch ap users => runCycle_attempts b fetch ap users
  · exact fun b fetch ap users pr hpr => runCycle_appends_sound b fetch ap users pr hpr

theorem nonOk_status_isolated_witness :
    fetchProfileResult aliceU 500 0 ⟨[], []⟩ =
      Except.error ("received non-200 status code: " ++ toString 500) :=
  (nonOk_status_isolated aliceU 500 0 ⟨[], []⟩ (by decide)).1

/-- C9 counterexample: with one account and no snapshots at all, the
`/api/profiles` response body is JSON `null` — Go's `encoding/json` rendering
of the nil slice the handler declares — and JSON `null` is not the empty
JSON array the claim requires. -/
theorem profiles_empty_gives_null :
    profilesResponse ⟨[aliceU], []⟩ = Json.null ∧ Json.null ≠ Json.arr [] := by
  exact ⟨rfl, by decide⟩

theorem joinOwner_eq_nil_of_no_user (db : DB) (owner : String) (r : Row)
    (h : ∀ u ∈ db.users, u.displayName ≠ owner) :
    joinOwner db owner r = [] := by
  unfold joinOwner
  rw [List.filterMap_eq_nil_iff]
  intro u hu
  have hne : u.displayName ≠ owner := h u hu
  have : (u.displayName == owner) = false := by
    simp [hne]
  rw [this]
  simp

/-- C9 (amended): when no snapshot exists, `/api/profiles` answers with the
JSON body `null` rather than an empty array (and not an error); likewise
`/api/history` answers `null` when the database has no rows or when the named
account does not exist.  The `owner` parameter must still be present,
otherwise the response is HTTP 400. -/
theorem empty_data_gives_null_responses (db db2 : DB) (owner : String)
    (h1 : db.history = []) (h2 : owner ≠ "")
    (h3 : ∀ u ∈ db2.users, u.displayName ≠ owner) :
    profilesResponse db = Json.null ∧
    historyResponse db owner = Except.ok Json.null ∧
    historyResponse db2 owner = Except.ok Json.null := by
  refine ⟨?_, ?_, ?_⟩
  · unfold profilesResponse latestPerAccount
    rw [h1]
    rfl
  · unfold historyResponse
    rw [if_neg h2]
    unfold historyFor
    rw [h1]
    rfl
  · unfold historyResponse
    rw [if_neg h2]
    unfold historyFor
    have : db2.history.flatMap (joinOwner db2 owner) = [] := by
      rw [List.flatMap_eq_nil_iff]
      intro r hr
      exact joinOwner_eq_nil_of_no_user db2 owner r h3
    rw [this]
    rfl

theorem empty_data_gives_null_responses_witness :
    profilesResponse ⟨[aliceU], []⟩ = Json.null ∧
    historyResponse ⟨[aliceU], []⟩ "alice" = Except.ok Json.null ∧
    historyResponse ⟨[bobU], [⟨2, 5, 1, "", "", "", 0, 0⟩]⟩ "alice" =
      Except.ok Json.null :=
  empty_data_gives_null_responses ⟨[aliceU], []⟩
    ⟨[bobU], [⟨2, 5, 1, "", "", "", 0, 0⟩]⟩ "alice" rfl (by decide) (by decide)

theorem flatMap_congr {α β : Type} (l : List α) (f g : α → List β)
    (h : ∀ a ∈ l, f a = g a) : l.flatMap f = l.flatMap g := by
  induction l with
  | nil => rfl
  | cons a tl ih =>
    rw [List.flatMap_cons, List.flatMap_cons, h a (List.mem_cons_self a tl),
      ih (fun x hx => h x (List.mem_cons_of_mem a hx))]

theorem filter_flatMap {α β : Type} (l : List α) (f : α → List β) (p : β → Bool) :
    (l.flatMap f).filter p = l.flatMap (fun a => (f a).filter p) := by
  induction l with
  | nil => rfl
  | cons a tl ih =>
    rw [List.flatMap_cons, List.flatMap_cons, List.filter_append, ih]

theorem flatMap_ite_singleton {α β : Type} (l : List α) (p : α → Bool) (f : α → β) :
    l.flatMap (fun a => if p a then [f a] else []) = (l.filter p).map f := by
  induction l with
  | nil => rfl
  | cons a tl ih =>
    rw [List.flatMap_cons, List.filter_cons]
    cases h : p a with
    | true => rw [if_pos rfl, ih]; rfl
    | false => rw [if_neg (by simp), ih]; rfl

theorem foldr_max_le (l : List Nat) (x : Nat) (hx : x ∈ l) : x ≤ l.foldr max 0 := by
  induction l with
  | nil => simp at hx
  | cons a tl ih =>
    rcases List.mem_cons.mp hx with heq | hmem
    · subst heq; exact Nat.le_max_left _ _
    · exact Nat.le_trans (ih hmem) (Nat.le_max_right _ _)

theorem foldr_max_mem (l : List Nat) (h : l ≠ []) : l.foldr max 0 ∈ l := by
  induction l with
  | nil => exact absurd rfl h
  | cons a tl ih =>
    cases htl : tl with
    | nil => simp
    | cons b tl2 =>
      rw [← htl]
      show max a (tl.foldr max 0) ∈ a :: tl
      rcases Nat.le_total (tl.foldr max 0) a with hle | hle
      · rw [Nat.max_eq_left hle]; exact List.mem_cons_self _ _
      · rw [Nat.max_eq_right hle]
        exact List.mem_cons_of_mem _ (ih (by rw [htl]; simp))

theorem joinUsers_filter_no_name (r : Row) (name : String) :
    ∀ l : List User, (∀ u ∈ l, u.displayName ≠ name) →
      ((l.filterMap (fun v =>
          if v.id == r.userId then some (mkProfile v.displayName r) else none)).filter
        (fun p => p.owner == name)) = [] := by
  intro l
  induction l with
  | nil => intro h; rfl
  | cons v tl ih =>
    intro h
    rw [List.filterMap_cons]
    cases hid : (v.id == r.userId) with
    | false =>
      rw [if_neg (by simp [hid])]
      exact ih (fun u hu => h u (List.mem_cons_of_mem v hu))
    | true =>
      rw [if_pos rfl, List.filter_cons]
      have hne : v.displayName ≠ name := h v (List.mem_cons_self v tl)
      have : ((mkProfile v.displayName r).owner == name) = false := by
        simp [mkProfile, hne]
      rw [this]
      simp only [Bool.false_eq_true, if_false]
      exact ih (fun u hu => h u (List.mem_cons_of_mem v hu))

theorem joinUsers_filter_name (r : Row) (u : User) :
    ∀ l : List User, u ∈ l → (l.map (fun v => v.displayName)).Nodup →
      ((l.filterMap (fun v =>
          if v.id == r.userId then some (mkProfile v.displayName r) else none)).filter
        (fun p => p.owner == u.displayName)) =
      if u.id == r.userId then [mkProfile u.displayName r] else [] := by
  intro l
  induction l with
  | nil => intro hu; simp at hu
  | cons v tl ih =>
    intro hu hnd
    rw [List.map_cons, List.nodup_cons] at hnd
    obtain ⟨hnotin, hndtl⟩ := hnd
    rw [List.filterMap_cons]
    rcases List.mem_cons.mp hu with heq | hmem
    · subst heq
      have htl : ∀ w ∈ tl, w.displayName ≠ u.displayName := by
        intro w hw hcontra
        exact hnotin (hcontra ▸ List.mem_map_of_mem (fun v => v.displayName) hw)
      cases hid : (u.id == r.userId) with
      | false =>
        rw [if_neg (by simp [hid])]
        exact joinUsers_filter_no_name r u.displayName tl htl
      | true =>
        rw [if_pos rfl, List.filter_cons]
        have : ((mkProfile u.displayName r).owner == u.displayName) = true := by
          simp [mkProfile]
        rw [this]
        simp only [if_true]
        rw [joinUsers_filter_no_name r u.displayName tl htl]
    · have hvne : v.displayName ≠ u.displayName := by
        intro hcontra
        exact hnotin (hcontra ▸ List.mem_map_of_mem (fun v => v.displayName) hmem)
      cases hid : (v.id == r.userId) with
      | false =>
        rw [if_neg (by simp [hid])]
        exact ih hmem hndtl
      | true =>
        rw [if_pos rfl, List.filter_cons]
        have : ((mkProfile v.displayName r).owner == u.displayName) = false := by
          simp [mkProfile, hvne]
        rw [this]
        simp only [Bool.false_eq_true, if_false]
        exact ih hmem hndtl

theorem latestPerAccount_filter_owner (db : DB) (u : User) (hu : u ∈ db.users)
    (hnames : (db.users.map (fun v => v.displayName)).Nodup) :
    (latestPerAccount db).filter (fun p => p.owner == u.displayName) =
      (db.history.filter (fun r => isLatestB db r && u.id == r.userId)).map
        (mkProfile u.displayName) := by
  unfold latestPerAccount
  rw [filter_flatMap]
  have hpt : ∀ r ∈ db.history,
      ((if isLatestB db r then joinUsers db r else []).filter
        (fun p => p.owner == u.displayName)) =
      (if (isLatestB db r && u.id == r.userId) = true
        then [mkProfile u.displayName r] else []) := by
    intro r hr
    cases hl : isLatestB db r with
    | false => rw [if_neg (by simp [hl])]; simp [hl]
    | true =>
      rw [if_pos rfl]
      unfold joinUsers
      rw [joinUsers_filter_name r u db.users hu hnames]
      cases hid : (u.id == r.userId) with
      | true => simp [hl, hid]
      | false => simp [hl, hid]
  rw [flatMap_congr _ _ _ hpt]
  exact flatMap_ite_singleton db.history
    (fun r => isLatestB db r && u.id == r.userId) (mkProfile u.displayName)

theorem filter_max_row (m : Nat) :
    ∀ L : List Row, (L.map (fun r => r.timestamp)).Nodup →
      m ∈ L.map (fun r => r.timestamp) →
      ∃ r, L.filter (fun r => r.timestamp == m) = [r] ∧ r ∈ L ∧ r.timestamp = m := by
  intro L
  induction L with
  | nil => intro _ hm; simp at hm
  | cons r0 tl ih =>
    intro hnd hm
    rw [List.map_cons, List.nodup_cons] at hnd
    obtain ⟨hnotin, hndtl⟩ := hnd
    rw [List.filter_cons]
    cases hts : (r0.timestamp == m) with
    | true =>
      have hts' : r0.timestamp = m := by simpa using hts
      simp only [if_true]
      refine ⟨r0, ?_, List.mem_cons_self _ _, hts'⟩
      have htl : tl.filter (fun r => r.timestamp == m) = [] := by
        rw [List.filter_eq_nil_iff]
        intro w hw
        intro hcontra
        have hwts : w.timestamp = m := by simpa using hcontra
        exact hnotin (by
          rw [hts', ← hwts]
          exact List.mem_map_of_mem (fun r => r.timestamp) hw)
      rw [htl]
    | false =>
      simp only [Bool.false_eq_true, if_false]
      have hm' : m ∈ tl.map (fun r => r.timestamp) := by
        rcases List.mem_cons.mp hm with heq | hmem
        · exact absurd heq.symm (by simpa using hts)
        · exact hmem
      obtain ⟨r, hfil, hmem, hrts⟩ := ih hndtl hm'
      exact ⟨r, hfil, List.mem_cons_of_mem r0 hmem, hrts⟩

theorem latest_pred_eq_rowsFor_pred (db : DB) (u : User) :
    db.history.filter (fun r => isLatestB db r && u.id == r.userId) =
      (rowsFor db u.id).filter (fun r => r.timestamp == maxTs db u.id) := by
  unfold rowsFor
  rw [List.filter_filter]
  apply List.filter_congr
  intro r hr
  by_cases hid : r.userId = u.id
  · have h1 : (u.id == r.userId) = true := by simp [hid]
    have h2 : (r.userId == u.id) = true := by simp [hid]
    unfold isLatestB
    rw [h1, h2, hid]
  · have h1 : (u.id == r.userId) = false := by
      simp only [beq_eq_false_iff_ne, ne_eq]
      exact fun h => hid h.symm
    have h2 : (r.userId == u.id) = false := by
      simp only [beq_eq_false_iff_ne, ne_eq]
      exact hid
    rw [h1, h2]
    simp

/-- C1 (amended): for every well-formed database state (unique display names)
in which each account's snapshot timestamps are pairwise distinct, the
latest-per-account query returns exactly one row for each account having at
least one snapshot — the row whose timestamp is that account's maximum — and
no row for an account with zero snapshots.  (With a tied maximum timestamp
the query returns one row per tying snapshot; distinct timestamps are what
makes the row unique.) -/
theorem latestPerAccount_unique_latest (db : DB) (u : User) (hu : u ∈ db.users)
    (hnames : (db.users.map (fun v => v.displayName)).Nodup)
    (hts : ((rowsFor db u.id).map (fun r => r.timestamp)).Nodup) :
    (rowsFor db u.id = [] →
      (latestPerAccount db).filter (fun p => p.owner == u.displayName) = []) ∧
    (rowsFor db u.id ≠ [] →
      ∃ r, r ∈ rowsFor db u.id ∧ r.timestamp = maxTs db u.id ∧
        (latestPerAccount db).filter (fun p => p.owner == u.displayName) =
          [mkProfile u.displayName r]) := by
  have hbase := latestPerAccount_filter_owner db u hu hnames
  rw [latest_pred_eq_rowsFor_pred db u] at hbase
  constructor
  · intro hempty
    rw [hbase, hempty]
    rfl
  · intro hne
    have hmapne : (rowsFor db u.id).map (fun r => r.timestamp) ≠ [] := by
      intro hcontra
      exact hne (List.map_eq_nil_iff.mp hcontra)
    have hmax : maxTs db u.id ∈ (rowsFor db u.id).map (fun r => r.timestamp) := by
      unfold maxTs
      exact foldr_max_mem _ hmapne
    obtain ⟨r, hfil, hmem, hrts⟩ := filter_max_row (maxTs db u.id) (rowsFor db u.id) hts hmax
    refine ⟨r, hmem, hrts, ?_⟩
    rw [hbase, hfil]
    rfl

/-- C1 counterexample: a database state where account "alice" has two
snapshots sharing the maximal timestamp 5.  The latest-per-account query
joins every row whose timestamp equals the group maximum, so it returns two
rows for this account, not exactly one. -/
theorem latest_returns_two_rows_on_tie :
    ((latestPerAccount
        ⟨[aliceU], [⟨1, 5, 1, "", "", "", 0, 0⟩, ⟨1, 5, 2, "", "", "", 0, 0⟩]⟩).filter
      (fun p => p.owner == "alice")).length = 2 ∧ (2 : Nat) ≠ 1 := by
  exact ⟨by decide, by decide⟩

theorem latestPerAccount_unique_latest_witness :
    (rowsFor ⟨[aliceU, bobU], [⟨1, 5, 1, "", "", "", 0, 0⟩, ⟨1, 9, 2, "", "", "", 0, 0⟩]⟩ aliceU.id = [] →
      (latestPerAccount ⟨[aliceU, bobU], [⟨1, 5, 1, "", "", "", 0, 0⟩, ⟨1, 9, 2, "", "", "", 0, 0⟩]⟩).filter
        (fun p => p.owner == aliceU.displayName) = []) ∧
    (rowsFor ⟨[aliceU, bobU], [⟨1, 5, 1, "", "", "", 0, 0⟩, ⟨1, 9, 2, "", "", "", 0, 0⟩]⟩ aliceU.id ≠ [] →
      ∃ r, r ∈ rowsFor ⟨[aliceU, bobU], [⟨1, 5, 1, "", "", "", 0, 0⟩, ⟨1, 9, 2, "", "", "", 0, 0⟩]⟩ aliceU.id ∧
        r.timestamp = maxTs ⟨[aliceU, bobU], [⟨1, 5, 1, "", "", "", 0, 0⟩, ⟨1, 9, 2, "", "", "", 0, 0⟩]⟩ aliceU.id ∧
        (latestPerAccount ⟨[aliceU, bobU], [⟨1, 5, 1, "", "", "", 0, 0⟩, ⟨1, 9, 2, "", "", "", 0, 0⟩]⟩).filter
          (fun p => p.owner == aliceU.displayName) = [mkProfile aliceU.displayName r]) :=
  latestPerAccount_unique_latest
    ⟨[aliceU, bobU], [⟨1, 5, 1, "", "", "", 0, 0⟩, ⟨1, 9, 2, "", "", "", 0, 0⟩]⟩
    aliceU (by decide) (by decide) (by decide)

theorem insertTs_perm (p : ProfileData) :
    ∀ l : List ProfileData, (insertTs p l).Perm (p :: l) := by
  intro l
  induction l with
  | nil => exact List.Perm.refl _
  | cons q qs ih =>
    unfold insertTs
    by_cases h : p.timestamp ≤ q.timestamp
    · rw [if_pos h]
    · rw [if_neg h]
      exact (List.Perm.cons q ih).trans (List.Perm.swap p q qs)

theorem sortTs_perm (l : List ProfileData) : (sortTs l).Perm l := by
  induction l with
  | nil => exact List.Perm.refl _
  | cons p tl ih =>
    show (insertTs p (sortTs tl)).Perm (p :: tl)
    exact (insertTs_perm p (sortTs tl)).trans (List.Perm.cons p ih)

theorem insertTs_sorted (p : ProfileData) :
    ∀ l : List ProfileData,
      l.Pairwise (fun a b => a.timestamp ≤ b.timestamp) →
      (insertTs p l).Pairwise (fun a b => a.timestamp ≤ b.timestamp) := by
  intro l
  induction l with
  | nil => intro h; exact List.pairwise_singleton _ _
  | cons q qs ih =>
    intro h
    rw [List.pairwise_cons] at h
    obtain ⟨hq, hqs⟩ := h
    unfold insertTs
    by_cases hle : p.timestamp ≤ q.timestamp
    · rw [if_pos hle]
      rw [List.pairwise_cons]
      refine ⟨?_, ?_⟩
      · intro x hx
        rcases List.mem_cons.mp hx with heq | hmem
        · subst heq; exact hle
        · exact Nat.le_trans hle (hq x hmem)
      · rw [List.pairwise_cons]
        exact ⟨hq, hqs⟩
    · rw [if_neg hle]
      rw [List.pairwise_cons]
      refine ⟨?_, ih hqs⟩
      intro x hx
      have hx' : x ∈ p :: qs := (insertTs_perm p qs).mem_iff.mp hx
      rcases List.mem_cons.mp hx' with heq | hmem
      · subst heq
        exact Nat.le_of_lt (Nat.lt_of_not_le hle)
      · exact hq x hmem

theorem sortTs_sorted (l : List ProfileData) :
    (sortTs l).Pairwise (fun a b => a.timestamp ≤ b.timestamp) := by
  induction l with
  | nil => exact List.Pairwise.nil
  | cons p tl ih => exact insertTs_sorted p (sortTs tl) ih

theorem filterMap_owner_eq_nil (owner : String) (r : Row) :
    ∀ l : List User, (∀ u ∈ l, u.displayName ≠ owner) →
      l.filterMap (fun u =>
        if u.id == r.userId && u.displayName == owner then
          some (mkProfile u.displayName r)
        else none) = [] := by
  intro l h
  rw [List.filterMap_eq_nil_iff]
  intro u hu
  have : (u.displayName == owner) = false := by simp [h u hu]
  rw [if_neg (by simp [this])]

theorem filterMap_owner_eq (owner : String) (r : Row) :
    ∀ l : List User, (l.map (fun v => v.displayName)).Nodup →
      l.filterMap (fun u =>
        if u.id == r.userId && u.displayName == owner then
          some (mkProfile u.displayName r)
        else none) =
      (if l.any (fun v => v.id == r.userId && v.displayName == owner) then
        [mkProfile owner r]
      else []) := by
  intro l
  induction l with
  | nil => intro h; rfl
  | cons v tl ih =>
    intro hnames
    rw [List.map_cons, List.nodup_cons] at hnames
    obtain ⟨hnotin, hndtl⟩ := hnames
    rw [List.filterMap_cons, List.any_cons]
    cases hc : (v.id == r.userId && v.displayName == owner) with
    | false =>
      rw [if_neg (by simp [hc]), Bool.false_or]
      exact ih hndtl
    | true =>
      have hname : v.displayName = owner := by
        have := (Bool.and_eq_true _ _).mp hc
        simpa using this.2
      have htl : ∀ w ∈ tl, w.displayName ≠ owner := by
        intro w hw hcontra
        exact hnotin (by
          rw [hname, ← hcontra]
          exact List.mem_map_of_mem (fun v => v.displayName) hw)
      rw [if_pos rfl, Bool.true_or, if_pos rfl,
        filterMap_owner_eq_nil owner r tl htl, hname]

theorem joinOwner_eq (db : DB) (owner : String) (r : Row)
    (hnames : (db.users.map (fun v => v.displayName)).Nodup) :
    joinOwner db owner r =
      if db.users.any (fun v => v.id == r.userId && v.displayName == owner) then
        [mkProfile owner r]
      else [] := by
  unfold joinOwner
  exact filterMap_owner_eq owner r db.users hnames

/-- C2: for every well-formed database state (unique display names), the
history query returns its rows in non-decreasing timestamp order, and the
returned rows are exactly (as a multiset, and in membership) the snapshots
whose owning account's display name matches the requested name. -/
theorem historyFor_sorted_and_complete (db : DB) (owner : String)
    (hnames : (db.users.map (fun v => v.displayName)).Nodup) :
    (historyFor db owner).Pairwise (fun a b => a.timestamp ≤ b.timestamp) ∧
    (historyFor db owner).Perm
      ((db.history.filter
        (fun r => db.users.any
          (fun v => v.id == r.userId && v.displayName == owner))).map
        (mkProfile owner)) ∧
    (∀ p : ProfileData, p ∈ historyFor db owner ↔
      ∃ r ∈ db.history,
        (∃ u ∈ db.users, u.id = r.userId ∧ u.displayName = owner) ∧
        p = mkProfile owner r) := by
  have hflat : db.history.flatMap (joinOwner db owner) =
      (db.history.filter
        (fun r => db.users.any
          (fun v => v.id == r.userId && v.displayName == owner))).map
        (mkProfile owner) := by
    rw [flatMap_congr db.history (joinOwner db owner)
      (fun r => if db.users.any
          (fun v => v.id == r.userId && v.displayName == owner) then
        [mkProfile owner r] else [])
      (fun r hr => joinOwner_eq db owner r hnames)]
    exact flatMap_ite_singleton db.history _ (mkProfile owner)
  refine ⟨sortTs_sorted _, ?_, ?_⟩
  · show (sortTs (db.history.flatMap (joinOwner db owner))).Perm _
    rw [hflat]
    exact sortTs_perm _
  · intro p
    show p ∈ sortTs (db.history.flatMap (joinOwner db owner)) ↔ _
    rw [hflat, (sortTs_perm _).mem_iff, List.mem_map]
    constructor
    · rintro ⟨r, hrf, heq⟩
      rw [List.mem_filter] at hrf
      obtain ⟨hr, hcond⟩ := hrf
      rw [List.any_eq_true] at hcond
      obtain ⟨u, hu, hcu⟩ := hcond
      rw [Bool.and_eq_true] at hcu
      exact ⟨r, hr, ⟨u, hu, by simpa using hcu.1, by simpa using hcu.2⟩, heq.symm⟩
    · rintro ⟨r, hr, ⟨u, hu, hid, hname⟩, heq⟩
      refine ⟨r, ?_, heq.symm⟩
      rw [List.mem_filter]
      refine ⟨hr, ?_⟩
      rw [List.any_eq_true]
      exact ⟨u, hu, by simp [hid, hname]⟩

theorem historyFor_sorted_and_complete_witness :
    ((historyFor ⟨[aliceU, bobU],
        [⟨1, 9, 1, "", "", "", 0, 0⟩, ⟨2, 4, 2, "", "", "", 0, 0⟩,
         ⟨1, 5, 3, "", "", "", 0, 0⟩]⟩ "alice").Pairwise
      (fun a b => a.timestamp ≤ b.timestamp)) :=
  (historyFor_sorted_and_complete ⟨[aliceU, bobU],
    [⟨1, 9, 1, "", "", "", 0, 0⟩, ⟨2, 4, 2, "", "", "", 0, 0⟩,
     ⟨1, 5, 3, "", "", "", 0, 0⟩]⟩ "alice" (by decide)).1
